import Mathlib

/-!
Verification of the chonker8 helper scripts
(`download_trocr_onnx.py`, `kitty_test_simple.py`, `demo_chonker8_hot.py`,
`test_table_pdf.py`) against their design specification.

The scripts are shallowly embedded: the filesystem is an association list
from paths to byte lists, an HTTP response is a record of status, optional
content-length header and delivered chunks, and each script's effect is a
pure function over these.
-/

set_option linter.unusedVariables false

namespace Chonker8

/-! ## Filesystem model -/

/-- File contents: a list of byte values. -/
abbrev Bytes := List Nat

/-- A filesystem: an association list from paths to file contents.
Earlier entries shadow later ones. -/
abbrev FS := List (String × Bytes)

/-- Look a path up in the filesystem. -/
def getFile : FS → String → Option Bytes
  | [], _ => none
  | (q, b) :: rest, p => if q = p then some b else getFile rest p

/-- Remove every entry for a path. -/
def removeFile : FS → String → FS
  | [], _ => []
  | (q, b) :: rest, p =>
    if q = p then removeFile rest p else (q, b) :: removeFile rest p

/-- Write a file: the path now maps to exactly this content
(an existing file at the path is replaced). -/
def setFile (fs : FS) (p : String) (b : Bytes) : FS :=
  (p, b) :: removeFile fs p

/-- `os.rename src dst` with POSIX semantics: `dst` receives the content of
`src` and `src` disappears; a pre-existing `dst` is silently replaced.
When `src` is absent this models a no-op (the scripts only call it after an
existence check). -/
def renameFile (fs : FS) (src dst : String) : FS :=
  match getFile fs src with
  | some b => setFile (removeFile fs src) dst b
  | none => fs

/-! ## `download_trocr_onnx.py` -/

/-- An HTTP response as observed by `download_file`
(`download_trocr_onnx.py` lines 10-29): the status code, the parsed
`content-length` header if present, the byte chunks that
`response.iter_content` delivered before any stream failure, and the stream
failure raised after those chunks, if one occurred. -/
structure HttpResponse where
  status : Nat
  contentLength : Option Nat
  chunks : List Bytes
  streamErr : Option String

/-- The streaming loop of `download_file` (lines 19-26): for each chunk,
skip it when falsy (empty), otherwise write it and, when the advertised
total is positive, print a progress report carrying the cumulative byte
count and the total.  Returns the bytes written and the list of progress
reports emitted, in order. -/
def downloadLoop (total downloaded : Nat) : List Bytes → Bytes × List (Nat × Nat)
  | [] => ([], [])
  | c :: rest =>
    if c.isEmpty then downloadLoop total downloaded rest
    else
      (c ++ (downloadLoop total (downloaded + c.length) rest).1,
       if 0 < total then
         (downloaded + c.length, total) :: (downloadLoop total (downloaded + c.length) rest).2
       else (downloadLoop total (downloaded + c.length) rest).2)

/-- `download_file url destination` (lines 10-29).  `conn` is the outcome of
`requests.get`: either a connection-level error or a response.
`raise_for_status` turns an error status (>= 400) into an exception before
the destination is opened; afterwards `open(destination, 'wb')` truncates
the destination and the streaming loop writes the delivered chunks, so a
stream failure leaves exactly the bytes received so far at the destination
and re-raises.  There is no retry or resume anywhere. -/
def download_file (fs : FS) (dest : String) (conn : Except String HttpResponse) :
    Except String String × FS :=
  match conn with
  | Except.error e => (Except.error e, fs)
  | Except.ok r =>
    if 400 ≤ r.status then (Except.error "HTTPError", fs)
    else
      match r.streamErr with
      | some e =>
        (Except.error e, setFile fs dest (downloadLoop (r.contentLength.getD 0) 0 r.chunks).1)
      | none =>
        (Except.ok dest, setFile fs dest (downloadLoop (r.contentLength.getD 0) 0 r.chunks).1)

/-- The progress reports printed by `download_file` for a given response:
one `(downloaded, total)` pair per nonempty chunk, and only when
`total_size > 0` (lines 15, 24-26). -/
def progressTrace (r : HttpResponse) : List (Nat × Nat) :=
  (downloadLoop (r.contentLength.getD 0) 0 r.chunks).2

/-- The backup step of `main` (lines 38-43): if `models/trocr.onnx` exists
it is renamed to `models/trocr_pytorch.pth` before any download starts. -/
def backupStep (fs : FS) : FS :=
  if (getFile fs "models/trocr.onnx").isSome then
    renameFile fs "models/trocr.onnx" "models/trocr_pytorch.pth"
  else fs

/-- `main` of `download_trocr_onnx.py` (lines 31-88): back the existing
model up, then download `models/trocr.onnx` and `models/trocr_encoder.onnx`
in order inside one try block; a caught failure returns 1, full completion
returns 0.  Returns the exit code and the final filesystem. -/
def mainDownload (fs : FS) (conn1 conn2 : Except String HttpResponse) : Nat × FS :=
  let r1 := download_file (backupStep fs) "models/trocr.onnx" conn1
  match r1.1 with
  | Except.error _ => (1, r1.2)
  | Except.ok _ =>
    let r2 := download_file r1.2 "models/trocr_encoder.onnx" conn2
    match r2.1 with
    | Except.error _ => (1, r2.2)
    | Except.ok _ => (0, r2.2)

/-- Whether a `requests.get` outcome lets `download_file` run to completion:
the connection succeeded, the status is below 400 and the stream did not
fail. -/
def respOk : Except String HttpResponse → Bool
  | Except.error _ => false
  | Except.ok r => decide (r.status < 400) && r.streamErr.isNone

/-- Running prefix sums, used to describe the cumulative byte counts the
progress reports carry. -/
def prefixSums (acc : Nat) : List Nat → List Nat
  | [] => []
  | x :: xs => (acc + x) :: prefixSums (acc + x) xs

/-! ## Marker scanning (`test_table_pdf.py`, `demo_chonker8_hot.py`) -/

/-- Python's `text.split('\n')`: the maximal `'\n'`-free pieces of the
text, with `''.split('\n') == ['']`. -/
def pySplit : List Char → List (List Char)
  | [] => [[]]
  | c :: t =>
    if c = '\n' then [] :: pySplit t
    else
      match pySplit t with
      | [] => [[c]]
      | l :: ls => (c :: l) :: ls

/-- The literal marker patterns the scripts test captured output against:
`test_table_pdf.py` line 25 checks `"LayoutAnalysis"` and
`"has_tables=true"` on stderr, `demo_chonker8_hot.py` line 34 checks
`"[VELLO] Successfully decoded image"` on stderr and line 18 checks
`"Successfully rendered page!"` on stdout. -/
def markerRules : List (List Char) :=
  ["LayoutAnalysis".toList, "has_tables=true".toList,
   "[VELLO] Successfully decoded image".toList,
   "Successfully rendered page!".toList]

/-- Python's `pattern in text`: substring containment over the whole
scanned text, which is how every marker check in the scripts is written. -/
def ruleMatch (p t : List Char) : Bool := decide (p <:+: t)

/-- The subset of the marker rules that match a scanned text; each rule is
tested by its own containment check only. -/
def matchedRules (t : List Char) : List (List Char) :=
  markerRules.filter fun p => ruleMatch p t

/-! ## Kitty graphics emission (`kitty_test_simple.py`) -/

/-- The standard base64 alphabet. -/
def b64alphabet : List Char :=
  "ABCDEFGHIJKLMNOPQRSTUVWXYZabcdefghijklmnopqrstuvwxyz0123456789+/".toList

/-- The base64 character for a sextet value. -/
def b64char (i : Nat) : Char := b64alphabet.getD i 'A'

/-- The sextet value of a base64 character. -/
def b64index (c : Char) : Nat := b64alphabet.indexOf c

/-- `base64.b64encode` (RFC 4648, with `=` padding): three bytes become
four alphabet characters; a final group of one or two bytes is padded. -/
def b64encode : List Nat → List Char
  | [] => []
  | [a] => [b64char (a / 4), b64char (a % 4 * 16), '=', '=']
  | [a, b] => [b64char (a / 4), b64char (a % 4 * 16 + b / 16), b64char (b % 16 * 4), '=']
  | a :: b :: c :: rest =>
    b64char (a / 4) :: b64char (a % 4 * 16 + b / 16) ::
      b64char (b % 16 * 4 + c / 64) :: b64char (c % 64) :: b64encode rest

/-- Standard base64 decoding of a padded encoding (the scripts only encode;
this inverse follows RFC 4648 and is used to state the round-trip
property). -/
def b64decode : List Char → List Nat
  | x1 :: x2 :: x3 :: x4 :: rest =>
    if x3 = '=' then [b64index x1 * 4 + b64index x2 / 16]
    else if x4 = '=' then
      [b64index x1 * 4 + b64index x2 / 16, b64index x2 % 16 * 16 + b64index x3 / 4]
    else
      (b64index x1 * 4 + b64index x2 / 16) ::
        (b64index x2 % 16 * 16 + b64index x3 / 4) ::
        (b64index x3 % 4 * 64 + b64index x4) :: b64decode rest
  | _ => []

/-- The fixed escape-sequence opening of `kitty_test_simple.py` line 18:
ESC `_G`, the protocol constants `a=T,f=100`, and the `;` separating the
control section from the payload. -/
def kittyHeader : List Char := "\x1b_Ga=T,f=100;".toList

/-- The closing two bytes of the escape sequence: ESC backslash. -/
def kittyTerminator : List Char := ['\x1b', '\\']

/-- The byte sequence `kitty_test_simple.py` line 18 writes to standard
output for given image file contents. -/
def kittyEmit (img : Bytes) : List Char :=
  kittyHeader ++ b64encode img ++ kittyTerminator

/-- The graphics-emission part of `kitty_test_simple.py` (lines 11-19):
read `vello_render_test.png`, then write the framed base64 payload to
standard output.  If the file cannot be read, `open` raises before any
write, so the run produces no output and reports the failure.  Returns the
bytes written to standard output and the fatal error, if any. -/
def graphicsEmitterRun (fs : FS) : List Char × Option String :=
  match getFile fs "vello_render_test.png" with
  | none => ([], some "FileNotFoundError")
  | some img => (kittyEmit img, none)

/-! ## Filesystem lemmas -/

theorem getFile_removeFile_same (fs : FS) (p : String) :
    getFile (removeFile fs p) p = none := by
  induction fs with
  | nil => rfl
  | cons e rest ih =>
    obtain ⟨q, b⟩ := e
    by_cases h : q = p <;> simp [removeFile, getFile, h, ih]

theorem getFile_removeFile_ne (fs : FS) (p q : String) (h : p ≠ q) :
    getFile (removeFile fs p) q = getFile fs q := by
  induction fs with
  | nil => rfl
  | cons e rest ih =>
    obtain ⟨s, b⟩ := e
    by_cases hs : s = p
    · subst hs
      simp [removeFile, getFile, h, ih]
    · by_cases hq : s = q
      · subst hq
        simp [removeFile, getFile, hs, Ne.symm h]
      · simp [removeFile, getFile, hs, hq, ih]

theorem getFile_setFile_same (fs : FS) (p : String) (b : Bytes) :
    getFile (setFile fs p b) p = some b := by
  simp [setFile, getFile]

theorem getFile_setFile_ne (fs : FS) (p q : String) (b : Bytes) (h : p ≠ q) :
    getFile (setFile fs p b) q = getFile fs q := by
  simp [setFile, getFile, h, getFile_removeFile_ne fs p q h]

/-! ## `download_file` lemmas -/

theorem downloadLoop_fst (total downloaded : Nat) (chunks : List Bytes) :
    (downloadLoop total downloaded chunks).1 = chunks.flatten := by
  induction chunks generalizing downloaded with
  | nil => rfl
  | cons c rest ih =>
    cases hc : c.isEmpty with
    | true =>
      have : c = [] := by simpa using hc
      simp [downloadLoop, hc, ih, this]
    | false => simp [downloadLoop, hc, ih]

theorem downloadLoop_snd_zero (downloaded : Nat) (chunks : List Bytes) :
    (downloadLoop 0 downloaded chunks).2 = [] := by
  induction chunks generalizing downloaded with
  | nil => rfl
  | cons c rest ih =>
    cases hc : c.isEmpty <;> simp [downloadLoop, hc, ih]

theorem downloadLoop_snd_pos (total : Nat) (ht : 0 < total) (downloaded : Nat)
    (chunks : List Bytes) :
    (downloadLoop total downloaded chunks).2 =
      (prefixSums downloaded ((chunks.filter fun c => !c.isEmpty).map List.length)).map
        fun d => (d, total) := by
  induction chunks generalizing downloaded with
  | nil => rfl
  | cons c rest ih =>
    cases hc : c.isEmpty with
    | true => simp [downloadLoop, hc, ih]
    | false => simp [downloadLoop, hc, ih, prefixSums, ht]

theorem getFile_download_file_ne (fs : FS) (dest : String)
    (conn : Except String HttpResponse) (q : String) (h : dest ≠ q) :
    getFile (download_file fs dest conn).2 q = getFile fs q := by
  rcases conn with e | r
  · rfl
  · by_cases hs : 400 ≤ r.status
    · simp [download_file, hs]
    · cases herr : r.streamErr <;>
        simp [download_file, hs, herr, getFile_setFile_ne _ _ _ _ h]

theorem download_file_fst_cases (fs : FS) (dest : String)
    (c : Except String HttpResponse) :
    (respOk c = true ∧ (download_file fs dest c).1 = Except.ok dest) ∨
    (respOk c = false ∧ ∃ e, (download_file fs dest c).1 = Except.error e) := by
  rcases c with e | r
  · exact Or.inr ⟨rfl, e, rfl⟩
  · by_cases h : 400 ≤ r.status
    · refine Or.inr ⟨?_, "HTTPError", ?_⟩
      · simp [respOk]
        omega
      · simp [download_file, h]
    · cases hs : r.streamErr with
      | none =>
        refine Or.inl ⟨?_, ?_⟩
        · simp [respOk, hs]
          omega
        · simp [download_file, h, hs]
      | some e =>
        refine Or.inr ⟨?_, e, ?_⟩
        · simp [respOk, hs]
        · simp [download_file, h, hs]

/-! ## Line-splitting lemmas -/

theorem pySplit_ne_nil (t : List Char) : pySplit t ≠ [] := by
  induction t with
  | nil => simp [pySplit]
  | cons c t ih =>
    by_cases hc : c = '\n'
    · simp [pySplit, hc]
    · cases h : pySplit t with
      | nil => exact absurd h ih
      | cons l ls => simp [pySplit, hc, h]

theorem infix_of_pre {p t : List Char} (h : p <+: t) : p <:+: t := by
  obtain ⟨u, hu⟩ := h
  exact ⟨[], u, by simpa using hu⟩

theorem prefix_pySplit_head :
    ∀ (t p l : List Char) (ls : List (List Char)),
      pySplit t = l :: ls → '\n' ∉ p → (p <+: t ↔ p <+: l) := by
  intro t
  induction t with
  | nil =>
    intro p l ls h hp
    simp only [pySplit, List.cons.injEq] at h
    rw [← h.1]
  | cons c t ih =>
    intro p l ls h hp
    by_cases hc : c = '\n'
    · subst hc
      have hnl : pySplit ('\n' :: t) = [] :: pySplit t := by simp [pySplit]
      rw [hnl] at h
      have hl : l = [] := by
        injection h with h1 h2
        exact h1.symm
      subst hl
      constructor
      · intro hpre
        cases p with
        | nil => exact List.nil_prefix
        | cons d q =>
          rw [List.cons_prefix_cons] at hpre
          exact absurd (show '\n' ∈ d :: q by
            rw [← hpre.1]; exact List.mem_cons_self d q) hp
      · intro hpre
        rw [List.prefix_nil.mp hpre]
        exact List.nil_prefix
    · cases h2 : pySplit t with
      | nil => exact absurd h2 (pySplit_ne_nil t)
      | cons l0 ls0 =>
        have hps : pySplit (c :: t) = (c :: l0) :: ls0 := by
          simp [pySplit, hc, h2]
        rw [hps] at h
        have hl : l = c :: l0 := (List.cons.injEq _ _ _ _ ▸ h).1.symm
        subst hl
        cases p with
        | nil => simp
        | cons d q =>
          rw [List.cons_prefix_cons, List.cons_prefix_cons]
          exact and_congr_right fun _ =>
            ih q l0 ls0 h2 fun hm => hp (List.mem_cons_of_mem d hm)

theorem infix_pySplit :
    ∀ (t p : List Char), '\n' ∉ p →
      (p <:+: t ↔ ∃ l ∈ pySplit t, p <:+: l) := by
  intro t
  induction t with
  | nil =>
    intro p hp
    simp [pySplit]
  | cons c t ih =>
    intro p hp
    rw [List.infix_cons_iff]
    by_cases hc : c = '\n'
    · subst hc
      have hps : pySplit ('\n' :: t) = [] :: pySplit t := by simp [pySplit]
      rw [hps]
      have hpre : p <+: '\n' :: t ↔ p = [] := by
        constructor
        · intro hpre
          cases p with
          | nil => rfl
          | cons d q =>
            rw [List.cons_prefix_cons] at hpre
            exact absurd (show '\n' ∈ d :: q by
              rw [← hpre.1]; exact List.mem_cons_self d q) hp
        · rintro rfl
          exact List.nil_prefix
      rw [hpre, ih p hp]
      constructor
      · rintro (rfl | ⟨l, hl, h3⟩)
        · exact ⟨[], by simp, List.infix_rfl⟩
        · exact ⟨l, by simp [hl], h3⟩
      · rintro ⟨l, hl, h3⟩
        rcases List.mem_cons.mp hl with rfl | hl0
        · exact Or.inl (by simpa using h3)
        · exact Or.inr ⟨l, hl0, h3⟩
    · cases h2 : pySplit t with
      | nil => exact absurd h2 (pySplit_ne_nil t)
      | cons l0 ls0 =>
        have hps : pySplit (c :: t) = (c :: l0) :: ls0 := by
          simp [pySplit, hc, h2]
        rw [hps]
        have hA := prefix_pySplit_head (c :: t) p (c :: l0) ls0 hps hp
        rw [hA, ih p hp, h2]
        constructor
        · rintro (h3 | ⟨l, hl, h3⟩)
          · exact ⟨c :: l0, by simp, infix_of_pre h3⟩
          · rcases List.mem_cons.mp hl with rfl | hl0
            · exact ⟨c :: l, by simp, List.infix_cons_iff.mpr (Or.inr h3)⟩
            · exact ⟨l, by simp [hl0], h3⟩
        · rintro ⟨l, hl, h3⟩
          rcases List.mem_cons.mp hl with rfl | hl0
          · rcases List.infix_cons_iff.mp h3 with h4 | h4
            · exact Or.inl h4
            · exact Or.inr ⟨l0, by simp, h4⟩
          · exact Or.inr ⟨l, by simp [hl0], h3⟩

/-! ## Base64 lemmas -/

theorem b64char_big (i : Nat) (h : 64 ≤ i) : b64char i = 'A' := by
  rw [b64char]
  apply List.getD_eq_default
  have h2 : b64alphabet.length = 64 := by decide
  omega

theorem b64char_mem (i : Nat) : b64char i ∈ b64alphabet := by
  rcases Nat.lt_or_ge i 64 with h | h
  · have hall : ∀ j, j < 64 → b64char j ∈ b64alphabet := by decide
    exact hall i h
  · rw [b64char_big i h]
    decide

theorem b64char_ne_pad (i : Nat) : b64char i ≠ '=' := by
  have hm := b64char_mem i
  intro h
  rw [h] at hm
  revert hm
  decide

theorem b64index_b64char (i : Nat) (h : i < 64) : b64index (b64char i) = i := by
  have hall : ∀ j, j < 64 → b64index (b64char j) = j := by decide
  exact hall i h

theorem b64encode_length (l : List Nat) :
    (b64encode l).length = (l.length + 2) / 3 * 4 := by
  induction l using b64encode.induct with
  | case1 => simp [b64encode]
  | case2 a => simp [b64encode]
  | case3 a b => simp [b64encode]
  | case4 a b c rest ih =>
    simp [b64encode, ih]
    omega

theorem b64encode_mem (ch : Char) (l : List Nat) (h : ch ∈ b64encode l) :
    ch ∈ b64alphabet ∨ ch = '=' := by
  induction l using b64encode.induct with
  | case1 => simp [b64encode] at h
  | case2 a =>
    simp only [b64encode, List.mem_cons, List.not_mem_nil, or_false] at h
    rcases h with rfl | rfl | rfl | rfl
    · exact Or.inl (b64char_mem _)
    · exact Or.inl (b64char_mem _)
    · exact Or.inr rfl
    · exact Or.inr rfl
  | case3 a b =>
    simp only [b64encode, List.mem_cons, List.not_mem_nil, or_false] at h
    rcases h with rfl | rfl | rfl | rfl
    · exact Or.inl (b64char_mem _)
    · exact Or.inl (b64char_mem _)
    · exact Or.inl (b64char_mem _)
    · exact Or.inr rfl
  | case4 a b c rest ih =>
    simp only [b64encode, List.mem_cons] at h
    rcases h with rfl | rfl | rfl | rfl | h
    · exact Or.inl (b64char_mem _)
    · exact Or.inl (b64char_mem _)
    · exact Or.inl (b64char_mem _)
    · exact Or.inl (b64char_mem _)
    · exact ih h

theorem b64_roundtrip :
    ∀ l : List Nat, (∀ x ∈ l, x < 256) → b64decode (b64encode l) = l := by
  intro l
  induction l using b64encode.induct with
  | case1 =>
    intro _
    rfl
  | case2 a =>
    intro hb
    have ha : a < 256 := hb a (by simp)
    have e1 : b64encode [a] = [b64char (a / 4), b64char (a % 4 * 16), '=', '='] := rfl
    have e2 : b64decode [b64char (a / 4), b64char (a % 4 * 16), '=', '='] =
        [b64index (b64char (a / 4)) * 4 + b64index (b64char (a % 4 * 16)) / 16] := by
      simp [b64decode]
    rw [e1, e2, b64index_b64char _ (by omega), b64index_b64char _ (by omega)]
    simp only [List.cons.injEq, and_true]
    omega
  | case3 a b =>
    intro hb
    have ha : a < 256 := hb a (by simp)
    have hb2 : b < 256 := hb b (by simp)
    have e1 : b64encode [a, b] =
        [b64char (a / 4), b64char (a % 4 * 16 + b / 16), b64char (b % 16 * 4), '='] := rfl
    have e2 : b64decode
          [b64char (a / 4), b64char (a % 4 * 16 + b / 16), b64char (b % 16 * 4), '='] =
        [b64index (b64char (a / 4)) * 4 + b64index (b64char (a % 4 * 16 + b / 16)) / 16,
          b64index (b64char (a % 4 * 16 + b / 16)) % 16 * 16 +
            b64index (b64char (b % 16 * 4)) / 4] := by
      simp [b64decode, b64char_ne_pad (b % 16 * 4)]
    rw [e1, e2, b64index_b64char _ (by omega), b64index_b64char _ (by omega),
      b64index_b64char _ (by omega)]
    simp only [List.cons.injEq, and_true]
    omega
  | case4 a b c rest ih =>
    intro hb
    have ha : a < 256 := hb a (by simp)
    have hb2 : b < 256 := hb b (by simp)
    have hc : c < 256 := hb c (by simp)
    have hrest : ∀ x ∈ rest, x < 256 := fun x hx => hb x (by simp [hx])
    have e1 : b64encode (a :: b :: c :: rest) =
        b64char (a / 4) :: b64char (a % 4 * 16 + b / 16) ::
          b64char (b % 16 * 4 + c / 64) :: b64char (c % 64) :: b64encode rest := rfl
    have e2 : b64decode
          (b64char (a / 4) :: b64char (a % 4 * 16 + b / 16) ::
            b64char (b % 16 * 4 + c / 64) :: b64char (c % 64) :: b64encode rest) =
        (b64index (b64char (a / 4)) * 4 +
            b64index (b64char (a % 4 * 16 + b / 16)) / 16) ::
          (b64index (b64char (a % 4 * 16 + b / 16)) % 16 * 16 +
            b64index (b64char (b % 16 * 4 + c / 64)) / 4) ::
          (b64index (b64char (b % 16 * 4 + c / 64)) % 4 * 64 +
            b64index (b64char (c % 64))) :: b64decode (b64encode rest) := by
      simp [b64decode, b64char_ne_pad (b % 16 * 4 + c / 64), b64char_ne_pad (c % 64)]
    rw [e1, e2, b64index_b64char _ (by omega), b64index_b64char _ (by omega),
      b64index_b64char _ (by omega), b64index_b64char _ (by omega), ih hrest]
    simp only [List.cons.injEq, and_true]
    omega

/-! ## Claim C1 -/

/-- Claim C1, counterexample: the claim says every download whose
destination already exists first renames the existing file to a backup
path.  The encoder download (`download_trocr_onnx.py` lines 70-76) does
not: starting from a filesystem in which `models/trocr_encoder.onnx`
already holds `[9]`, after a fully successful `main` run no file anywhere
holds `[9]` — the pre-existing destination was overwritten in place, never
renamed. -/
theorem C1_counterexample :
    getFile [("models/trocr_encoder.onnx", [9])] "models/trocr_encoder.onnx" = some [9] ∧
    ((mainDownload [("models/trocr_encoder.onnx", [9])]
        (Except.ok ⟨200, some 1, [[1]], none⟩)
        (Except.ok ⟨200, some 1, [[2]], none⟩)).2.all fun e => !(e.2 == [9])) = true := by
  decide

/-- Claim C1 as amended: only the primary model download (destination
`models/trocr.onnx`) has backup-before-overwrite semantics.  If that
destination exists with content `b` before `main` starts, the backup step
(which precedes both downloads) renames it to `models/trocr_pytorch.pth` —
so the backup holds `b` before any new content is written, silently
overwriting any prior backup at that path — and the backup still holds `b`
after the whole run, whatever the two download outcomes are.  The encoder
download performs no backup (see the counterexample). -/
theorem C1_backup_before_write (fs : FS) (b : Bytes)
    (h : getFile fs "models/trocr.onnx" = some b) :
    getFile (backupStep fs) "models/trocr_pytorch.pth" = some b ∧
    getFile (backupStep fs) "models/trocr.onnx" = none ∧
    ∀ c1 c2, getFile (mainDownload fs c1 c2).2 "models/trocr_pytorch.pth" = some b := by
  have h1 : backupStep fs =
      setFile (removeFile fs "models/trocr.onnx") "models/trocr_pytorch.pth" b := by
    simp [backupStep, renameFile, h]
  have hbk : getFile (backupStep fs) "models/trocr_pytorch.pth" = some b := by
    rw [h1]
    exact getFile_setFile_same _ _ _
  refine ⟨hbk, ?_, ?_⟩
  · rw [h1, getFile_setFile_ne _ _ _ _ (by decide)]
    exact getFile_removeFile_same _ _
  · intro c1 c2
    have hfs2 : getFile (download_file (backupStep fs) "models/trocr.onnx" c1).2
        "models/trocr_pytorch.pth" = some b := by
      rw [getFile_download_file_ne _ _ _ _ (by decide)]
      exact hbk
    have hfs3 : getFile (download_file
          (download_file (backupStep fs) "models/trocr.onnx" c1).2
          "models/trocr_encoder.onnx" c2).2 "models/trocr_pytorch.pth" = some b := by
      rw [getFile_download_file_ne _ _ _ _ (by decide)]
      exact hfs2
    rcases hd1 : (download_file (backupStep fs) "models/trocr.onnx" c1).1 with e1 | s1
    · simpa [mainDownload, hd1] using hfs2
    · rcases hd2 : (download_file
          (download_file (backupStep fs) "models/trocr.onnx" c1).2
          "models/trocr_encoder.onnx" c2).1 with e2 | s2
      · simpa [mainDownload, hd1, hd2] using hfs3
      · simpa [mainDownload, hd1, hd2] using hfs3

/-- Claim C1, witness: a concrete run in which `models/trocr.onnx` holds
`[5]` and an old backup `[7]` is silently overwritten. -/
theorem C1_backup_before_write_witness :
    getFile [("models/trocr.onnx", [5]), ("models/trocr_pytorch.pth", [7])]
      "models/trocr.onnx" = some [5] ∧
    getFile (backupStep [("models/trocr.onnx", [5]), ("models/trocr_pytorch.pth", [7])])
      "models/trocr_pytorch.pth" = some [5] ∧
    getFile (backupStep [("models/trocr.onnx", [5]), ("models/trocr_pytorch.pth", [7])])
      "models/trocr.onnx" = none ∧
    getFile (mainDownload [("models/trocr.onnx", [5]), ("models/trocr_pytorch.pth", [7])]
        (Except.ok ⟨200, some 1, [[1]], none⟩)
        (Except.ok ⟨200, some 1, [[2]], none⟩)).2 "models/trocr_pytorch.pth" = some [5] :=
  ⟨by decide,
   (C1_backup_before_write
     [("models/trocr.onnx", [5]), ("models/trocr_pytorch.pth", [7])] [5] (by decide)).1,
   (C1_backup_before_write
     [("models/trocr.onnx", [5]), ("models/trocr_pytorch.pth", [7])] [5] (by decide)).2.1,
   (C1_backup_before_write
     [("models/trocr.onnx", [5]), ("models/trocr_pytorch.pth", [7])] [5] (by decide)).2.2 _ _⟩

/-! ## Claim C2 -/

/-- Claim C2 (confirmed): for a successful download whose response carried
a content-length header advertising `S` — so the complete delivered body
has `S` bytes — the destination file afterwards holds exactly the delivered
body, hence has size exactly `S`.  (When no length header is present the
claim requires nothing.) -/
theorem C2_size_on_success (fs : FS) (dest : String) (r : HttpResponse) (S : Nat)
    (hcl : r.contentLength = some S)
    (hst : r.status < 400)
    (herr : r.streamErr = none)
    (hcomplete : r.chunks.flatten.length = S) :
    (download_file fs dest (Except.ok r)).1 = Except.ok dest ∧
    ∃ content, getFile (download_file fs dest (Except.ok r)).2 dest = some content ∧
      content.length = S := by
  have hnot : ¬ 400 ≤ r.status := by omega
  refine ⟨by simp [download_file, hnot, herr], r.chunks.flatten, ?_, hcomplete⟩
  simp [download_file, hnot, herr, downloadLoop_fst, getFile_setFile_same]

/-- Claim C2, witness: a complete 3-byte download advertised as 3 bytes. -/
theorem C2_size_on_success_witness :
    (download_file [] "models/trocr.onnx"
      (Except.ok ⟨200, some 3, [[1, 2], [], [3]], none⟩)).1 =
        Except.ok "models/trocr.onnx" ∧
    ∃ content, getFile (download_file [] "models/trocr.onnx"
      (Except.ok ⟨200, some 3, [[1, 2], [], [3]], none⟩)).2 "models/trocr.onnx" =
        some content ∧ content.length = 3 :=
  C2_size_on_success [] "models/trocr.onnx" ⟨200, some 3, [[1, 2], [], [3]], none⟩ 3
    rfl (by decide) rfl (by decide)

/-! ## Claim C3 -/

/-- Claim C3, counterexample: the claim says every network or I/O error
leaves a partial file at the destination.  A connection-level failure
(`requests.get` raising) aborts before the destination is ever opened: the
error is surfaced but the filesystem is untouched and no file — not even an
empty one — exists at the destination. -/
theorem C3_counterexample :
    download_file [] "models/trocr.onnx" (Except.error "ConnectionError") =
      (Except.error "ConnectionError", []) ∧
    getFile (download_file [] "models/trocr.onnx"
      (Except.error "ConnectionError")).2 "models/trocr.onnx" = none :=
  ⟨rfl, rfl⟩

/-- Claim C3 as amended: any network or I/O error aborts the download with
no retry or resume and surfaces the error to the caller; if the error
arises after streaming began (the destination was opened), a partial file
holding exactly the bytes received before the error remains at the
destination; a connection failure or HTTP error status aborts before the
destination is opened and leaves the filesystem untouched. -/
theorem C3_error_abort (fs : FS) (dest : String) (r : HttpResponse) (e : String) :
    download_file fs dest (Except.error e) = (Except.error e, fs) ∧
    (400 ≤ r.status →
      download_file fs dest (Except.ok r) = (Except.error "HTTPError", fs)) ∧
    (r.status < 400 → r.streamErr = some e →
      download_file fs dest (Except.ok r) =
        (Except.error e, setFile fs dest r.chunks.flatten)) := by
  refine ⟨rfl, ?_, ?_⟩
  · intro h
    simp [download_file, h]
  · intro h herr
    have hnot : ¬ 400 ≤ r.status := by omega
    simp [download_file, hnot, herr, downloadLoop_fst]

/-- Claim C3, witness: a stream failure after two delivered chunks leaves
exactly those bytes at the destination and surfaces the error. -/
theorem C3_error_abort_witness :
    download_file [] "models/trocr.onnx"
      (Except.ok ⟨200, some 5, [[1], [], [2]], some "ConnectionError"⟩) =
    (Except.error "ConnectionError", setFile [] "models/trocr.onnx" [1, 2]) :=
  (C3_error_abort [] "models/trocr.onnx"
    ⟨200, some 5, [[1], [], [2]], some "ConnectionError"⟩ "ConnectionError").2.2
    (by decide) rfl

/-! ## Claim C4 -/

/-- Claim C4, counterexample: the claim says that when the total size is
unknown the downloader reports indeterminate progress.  In fact when the
length header is absent the download is completely silent: a nonempty body
arrives (a byte was transferred) yet the progress trace is empty — no
report of any kind, indeterminate or otherwise, is emitted. -/
theorem C4_counterexample :
    progressTrace ⟨200, none, [[7]], none⟩ = [] ∧
    (⟨200, none, [[7]], none⟩ : HttpResponse).chunks.flatten ≠ [] := by
  decide

/-- Claim C4 as amended: when the length header is present and advertises a
positive total `S`, the downloader emits one fractional progress report per
nonempty chunk as it arrives, carrying the cumulative downloaded byte count
and the total `S`; when no length header is present it reports nothing at
all (the download is silent, with no indeterminate indicator). -/
theorem C4_progress (r : HttpResponse) (S : Nat) :
    (r.contentLength = some S → 0 < S →
      progressTrace r =
        (prefixSums 0 ((r.chunks.filter fun c => !c.isEmpty).map List.length)).map
          fun d => (d, S)) ∧
    (r.contentLength = none → progressTrace r = []) := by
  constructor
  · intro hcl hS
    rw [progressTrace, hcl]
    exact downloadLoop_snd_pos S hS 0 r.chunks
  · intro hcl
    rw [progressTrace, hcl]
    exact downloadLoop_snd_zero 0 r.chunks

/-- Claim C4, witness: a download advertised at 3 bytes, delivered as a
1-byte chunk, an empty chunk and another 1-byte chunk, reports cumulative
progress for exactly the two nonempty chunks. -/
theorem C4_progress_witness :
    progressTrace ⟨200, some 3, [[1], [], [2]], none⟩ =
      (prefixSums 0
        (((⟨200, some 3, [[1], [], [2]], none⟩ : HttpResponse).chunks.filter
          fun c => !c.isEmpty).map List.length)).map fun d => (d, 3) :=
  (C4_progress ⟨200, some 3, [[1], [], [2]], none⟩ 3).1 rfl (by decide)

/-! ## Claim C5 -/

/-- Claim C5 (confirmed): for every scanned text and every marker rule of
the scripts' rule list, the rule matches (the Python `pattern in text`
check succeeds) exactly when the pattern occurs, case-sensitively, inside
at least one line of the text (the pieces of `text.split('\n')`); and each
rule's membership in the matched set is determined by its own containment
check alone, independent of any other rule. -/
theorem C5_marker_line_matching (t p : List Char) (hp : p ∈ markerRules) :
    (p ∈ matchedRules t ↔ ∃ l ∈ pySplit t, p <:+: l) ∧
    (p ∈ matchedRules t ↔ ruleMatch p t = true) := by
  have hnl : '\n' ∉ p := by
    fin_cases hp <;> decide
  have hm : p ∈ matchedRules t ↔ ruleMatch p t = true := by
    rw [matchedRules, List.mem_filter]
    simp [hp]
  refine ⟨?_, hm⟩
  rw [hm]
  have : ruleMatch p t = true ↔ p <:+: t := by
    simp [ruleMatch]
  rw [this]
  exact infix_pySplit t p hnl

/-- Claim C5, witness: the decode marker matches a three-line stderr text
containing its line, and the match agrees with line-oriented containment. -/
theorem C5_marker_line_matching_witness :
    "[VELLO] Successfully decoded image".toList ∈ markerRules ∧
    ("[VELLO] Successfully decoded image".toList ∈
        matchedRules ("info\n[VELLO] Successfully decoded image\ndone".toList) ↔
      ∃ l ∈ pySplit ("info\n[VELLO] Successfully decoded image\ndone".toList),
        "[VELLO] Successfully decoded image".toList <:+: l) ∧
    ("[VELLO] Successfully decoded image".toList ∈
        matchedRules ("info\n[VELLO] Successfully decoded image\ndone".toList) ↔
      ruleMatch "[VELLO] Successfully decoded image".toList
        ("info\n[VELLO] Successfully decoded image\ndone".toList) = true) :=
  ⟨by decide,
   (C5_marker_line_matching ("info\n[VELLO] Successfully decoded image\ndone".toList)
     ("[VELLO] Successfully decoded image".toList) (by decide)).1,
   (C5_marker_line_matching ("info\n[VELLO] Successfully decoded image\ndone".toList)
     ("[VELLO] Successfully decoded image".toList) (by decide)).2⟩

/-! ## Claim C6 -/

/-- Claim C6 (confirmed): for a 10-byte image file and the protocol
constants `a=T,f=100`, the emitted byte sequence begins with the two-byte
escape prefix ESC `_`, contains the literal `a=T,f=100;`, the control
section is followed by exactly `ceil(10/3)*4 = 16` characters of padded
standard base64, and the sequence ends with the two-byte ESC-backslash
terminator. -/
theorem C6_kitty_frame (img : Bytes) (hlen : img.length = 10)
    (hbytes : ∀ x ∈ img, x < 256) :
    (kittyEmit img).take 2 = ['\x1b', '_'] ∧
    "a=T,f=100;".toList <:+: kittyEmit img ∧
    kittyEmit img = kittyHeader ++ b64encode img ++ kittyTerminator ∧
    (b64encode img).length = 16 ∧
    (∀ c ∈ b64encode img, c ∈ b64alphabet ∨ c = '=') ∧
    kittyTerminator <:+ kittyEmit img := by
  refine ⟨rfl, ?_, rfl, ?_, ?_, ?_⟩
  · exact ⟨['\x1b', '_', 'G'], b64encode img ++ kittyTerminator, rfl⟩
  · rw [b64encode_length, hlen]
  · intro c hc
    exact b64encode_mem c img hc
  · exact List.suffix_append _ _

/-- Claim C6, witness: the frame facts evaluated on a concrete 10-byte
file. -/
theorem C6_kitty_frame_witness :
    ([0, 1, 2, 3, 4, 5, 6, 7, 8, 9] : Bytes).length = 10 ∧
    (kittyEmit [0, 1, 2, 3, 4, 5, 6, 7, 8, 9]).take 2 = ['\x1b', '_'] ∧
    "a=T,f=100;".toList <:+: kittyEmit [0, 1, 2, 3, 4, 5, 6, 7, 8, 9] ∧
    (b64encode [0, 1, 2, 3, 4, 5, 6, 7, 8, 9]).length = 16 ∧
    kittyTerminator <:+ kittyEmit [0, 1, 2, 3, 4, 5, 6, 7, 8, 9] :=
  ⟨by decide,
   (C6_kitty_frame [0, 1, 2, 3, 4, 5, 6, 7, 8, 9] rfl (by decide)).1,
   (C6_kitty_frame [0, 1, 2, 3, 4, 5, 6, 7, 8, 9] rfl (by decide)).2.1,
   (C6_kitty_frame [0, 1, 2, 3, 4, 5, 6, 7, 8, 9] rfl (by decide)).2.2.2.1,
   (C6_kitty_frame [0, 1, 2, 3, 4, 5, 6, 7, 8, 9] rfl (by decide)).2.2.2.2.2⟩

/-! ## Claim C7 -/

/-- Claim C7 (confirmed): when the image file is absent the emission
operation fails fatally — the failed `open` raises before the single
`sys.stdout.write` — so the run reports the error and writes no bytes at
all to standard output (no partial escape sequence). -/
theorem C7_missing_file_no_output (fs : FS)
    (h : getFile fs "vello_render_test.png" = none) :
    graphicsEmitterRun fs = ([], some "FileNotFoundError") := by
  simp [graphicsEmitterRun, h]

/-- Claim C7, witness: an empty filesystem has no image file, so the run
emits nothing and reports the failure. -/
theorem C7_missing_file_no_output_witness :
    graphicsEmitterRun [] = ([], some "FileNotFoundError") :=
  C7_missing_file_no_output [] rfl

/-! ## Claim C8 -/

/-- Claim C8 (confirmed): the download utility's `main` returns exit code 0
exactly when both downloads run to completion, and exit code exactly 1 when
a failure (connection error, HTTP error status, or stream failure) is
caught during either download. -/
theorem C8_exit_codes (fs : FS) (c1 c2 : Except String HttpResponse) :
    (mainDownload fs c1 c2).1 = if respOk c1 && respOk c2 then 0 else 1 := by
  rcases download_file_fst_cases (backupStep fs) "models/trocr.onnx" c1 with
    ⟨hr1, hf1⟩ | ⟨hr1, e1, hf1⟩
  · rcases download_file_fst_cases
        (download_file (backupStep fs) "models/trocr.onnx" c1).2
        "models/trocr_encoder.onnx" c2 with ⟨hr2, hf2⟩ | ⟨hr2, e2, hf2⟩
    · simp [mainDownload, hf1, hf2, hr1, hr2]
    · simp [mainDownload, hf1, hf2, hr1, hr2]
  · simp [mainDownload, hf1, hr1]

/-! ## Claim C10 -/

/-- Claim C10 (confirmed): for every image file contents (bytes below 256),
the payload the emitter places between the `a=T,f=100;` control section and
the ESC-backslash terminator is the standard base64 encoding of the file
bytes, and base64-decoding that payload yields exactly the original
bytes — the emission round-trips. -/
theorem C10_base64_roundtrip (img : Bytes) (hbytes : ∀ x ∈ img, x < 256) :
    kittyEmit img = kittyHeader ++ b64encode img ++ kittyTerminator ∧
    b64decode (b64encode img) = img :=
  ⟨rfl, b64_roundtrip img hbytes⟩

/-- Claim C10, witness: the round-trip evaluated on a concrete 3-byte
file. -/
theorem C10_base64_roundtrip_witness :
    kittyEmit [0, 255, 10] = kittyHeader ++ b64encode [0, 255, 10] ++ kittyTerminator ∧
    b64decode (b64encode [0, 255, 10]) = [0, 255, 10] :=
  ⟨(C10_base64_roundtrip [0, 255, 10] (by decide)).1,
   (C10_base64_roundtrip [0, 255, 10] (by decide)).2⟩

end Chonker8
